import Mathlib

/-!
Verification of the grid trading bot core against its specification.

Python floats are modelled as exact rationals (ℚ); the claims under study
are about the accounting and control logic, not about rounding.

Sources embedded here:
  * `core/order_handling/balance_tracker.py`  (ledger operations)
  * `core/grid_management/grid_manager.py`    (grid generation, level state machine)
  * `core/order_handling/order_manager.py`    (initial placement filter, fill simulation)
  * `core/order_handling/order_book.py`       (order book, used by the cancel step)
  * `strategies/grid_trading_strategy.py`     (trigger logic, dynamic restart, rebalance)
  * `core/bot_management/event_bus.py`        (publish, modelled on a FIFO task queue)
-/

namespace GridBot

/-- Modelled from the spec: `order.py` is absent from the sources; §3 gives
`side ∈ {BUY, SELL}`. -/
inductive OrderSide where
  | BUY
  | SELL
  deriving DecidableEq, Repr

/-- Modelled from the spec: `order.py` is absent from the sources; §3 gives
`status ∈ {OPEN, CLOSED, CANCELED, UNKNOWN}`. -/
inductive OrderStatus where
  | OPEN
  | CLOSED
  | CANCELED
  | UNKNOWN
  deriving DecidableEq, Repr

/-- Modelled from the spec: `order.py` is absent from the sources; §3 gives
`type ∈ {LIMIT, MARKET}`. -/
inductive OrderType where
  | LIMIT
  | MARKET
  deriving DecidableEq, Repr

/-- Per-level grid cycle states, `grid_level.py` via spec §3 (the file itself is
absent from the sources; the constructors are exactly the five states used by
`grid_manager.py`). -/
inductive GridCycleState where
  | READY_TO_BUY
  | WAITING_FOR_BUY_FILL
  | READY_TO_SELL
  | WAITING_FOR_SELL_FILL
  | READY_TO_BUY_OR_SELL
  deriving DecidableEq, Repr

/-- Strategy variants, `strategies/strategy_type.py` via its users (the file is
absent from the sources; `grid_manager.py` uses exactly these two). -/
inductive StrategyType where
  | SIMPLE_GRID
  | HEDGED_GRID
  deriving DecidableEq, Repr

/-- Modelled from the spec: `order.py` is absent from the sources. §3 lists the
order fields; only the ones the claims touch are kept. -/
structure Order where
  identifier : Nat
  status : OrderStatus
  orderType : OrderType
  side : OrderSide
  price : ℚ
  amount : ℚ
  filled : ℚ
  remaining : ℚ
  timestamp : Int
  lastTradeTimestamp : Int
  deriving DecidableEq, Repr

/-- Modelled from the spec: `Order.is_open` is absent from the sources; an order
is open when its status is OPEN (§3 lifecycle). -/
def Order.isOpen (o : Order) : Bool :=
  o.status == OrderStatus.OPEN

/-- `GridLevel` from `grid_level.py` via spec §3: price, state and the two
optional paired back-references. Levels are keyed by price (as in the
`grid_levels : dict[float, GridLevel]` of `grid_manager.py`), so the
back-references are stored as prices. -/
structure GridLevel where
  price : ℚ
  state : GridCycleState
  pairedBuyLevel : Option ℚ := none
  pairedSellLevel : Option ℚ := none
  deriving DecidableEq, Repr

/-! ## BalanceTracker (`core/order_handling/balance_tracker.py`) -/

/-- The ledger fields of `BalanceTracker`: `balance` (fiat), `crypto_balance`,
`reserved_fiat`, `reserved_crypto`, `total_fees`. -/
structure Ledger where
  balance : ℚ
  crypto : ℚ
  reservedFiat : ℚ
  reservedCrypto : ℚ
  totalFees : ℚ
  deriving DecidableEq, Repr

/-- All four balance fields non-negative (spec §8 invariant 1). -/
def Ledger.NonNeg (s : Ledger) : Prop :=
  0 ≤ s.balance ∧ 0 ≤ s.crypto ∧ 0 ≤ s.reservedFiat ∧ 0 ≤ s.reservedCrypto

instance (s : Ledger) : Decidable s.NonNeg := by
  unfold Ledger.NonNeg
  infer_instance

/-- Modelled from the spec: `fee_calculator.py` is absent from the sources;
§4.3 gives `fee = trading_fee · qty · price`, i.e. the trading-fee rate times
the traded notional passed in by the callers. -/
def calculateFee (feeRate amount : ℚ) : ℚ :=
  feeRate * amount

/-- `BalanceTracker._update_after_buy_order_filled` (balance_tracker.py:115). -/
def updateAfterBuyOrderFilled (feeRate : ℚ) (s : Ledger) (quantity price : ℚ) : Ledger :=
  let fee := calculateFee feeRate (quantity * price)
  let totalCost := quantity * price + fee
  let rf := s.reservedFiat - totalCost
  if rf < 0 then
    { s with balance := s.balance + rf
             reservedFiat := 0
             crypto := s.crypto + quantity
             totalFees := s.totalFees + fee }
  else
    { s with reservedFiat := rf
             crypto := s.crypto + quantity
             totalFees := s.totalFees + fee }

/-- `BalanceTracker._update_after_sell_order_filled` (balance_tracker.py:143). -/
def updateAfterSellOrderFilled (feeRate : ℚ) (s : Ledger) (quantity price : ℚ) : Ledger :=
  let fee := calculateFee feeRate (quantity * price)
  let saleProceeds := quantity * price - fee
  if quantity ≤ s.reservedCrypto then
    { s with reservedCrypto := s.reservedCrypto - quantity
             balance := s.balance + saleProceeds
             totalFees := s.totalFees + fee }
  else
    { s with reservedCrypto := 0
             crypto := s.crypto - (quantity - s.reservedCrypto)
             balance := s.balance + saleProceeds
             totalFees := s.totalFees + fee }

/-- `BalanceTracker.update_after_initial_purchase` (balance_tracker.py:176),
with the fields of the closed order passed explicitly. -/
def updateAfterInitialPurchase (feeRate : ℚ) (s : Ledger) (filled average amount : ℚ) : Ledger :=
  let totalCost := filled * average
  let fee := calculateFee feeRate (amount * average)
  { s with crypto := s.crypto + filled
           balance := s.balance - (totalCost + fee)
           totalFees := s.totalFees + fee }

/-- `BalanceTracker.reserve_funds_for_buy` (balance_tracker.py:197). The Bool
records whether `InsufficientBalanceError` was raised (state untouched then). -/
def reserveFundsForBuy (s : Ledger) (amount : ℚ) : Ledger × Bool :=
  if s.balance < amount then (s, true)
  else ({ s with reservedFiat := s.reservedFiat + amount
                 balance := s.balance - amount }, false)

/-- `BalanceTracker.reserve_funds_for_sell` (balance_tracker.py:214). The Bool
records whether `InsufficientCryptoBalanceError` was raised. -/
def reserveFundsForSell (s : Ledger) (quantity : ℚ) : Ledger × Bool :=
  if s.crypto < quantity then (s, true)
  else ({ s with reservedCrypto := s.reservedCrypto + quantity
                 crypto := s.crypto - quantity }, false)

/-- `BalanceTracker.get_adjusted_fiat_balance` (balance_tracker.py:233). -/
def getAdjustedFiatBalance (s : Ledger) : ℚ :=
  s.balance + s.reservedFiat

/-- `BalanceTracker.get_adjusted_crypto_balance` (balance_tracker.py:242). -/
def getAdjustedCryptoBalance (s : Ledger) : ℚ :=
  s.crypto + s.reservedCrypto

/-- `BalanceTracker.get_total_balance_value` (balance_tracker.py:251). -/
def getTotalBalanceValue (s : Ledger) (price : ℚ) : ℚ :=
  getAdjustedFiatBalance s + getAdjustedCryptoBalance s * price

/-- `BalanceTracker.release_all_reserved_funds` (balance_tracker.py:263). -/
def releaseAllReservedFunds (s : Ledger) : Ledger :=
  { s with balance := s.balance + s.reservedFiat
           crypto := s.crypto + s.reservedCrypto
           reservedFiat := 0
           reservedCrypto := 0 }

/-! ## GridManager (`core/grid_management/grid_manager.py`) -/

/-- `GridManager.get_initial_order_quantity` (grid_manager.py:108). -/
def getInitialOrderQuantity (fiatBalance cryptoBalance currentPrice : ℚ) : ℚ :=
  let cryptoValue := cryptoBalance * currentPrice
  let totalValue := fiatBalance + cryptoValue
  let targetAlloc := totalValue / 2
  let fiatToAllocate := targetAlloc - cryptoValue
  let clamped := max 0 (min fiatToAllocate fiatBalance)
  clamped / currentPrice

/-- `np.linspace bottom top n`: `n` equally spaced points from `bottom` to
`top`, both included. -/
def linspace (bottom top : ℚ) (n : Nat) : List ℚ :=
  (List.range n).map (fun i => bottom + (top - bottom) * i / (n - 1))

/-- The arithmetic branch of
`GridManager._calculate_price_grids_and_central_price` (grid_manager.py:387):
an even requested count is bumped to an odd one, the central element is
recorded, and for `SIMPLE_GRID` the inserted midpoint is removed again. -/
def priceGridsArithmetic (strategy : StrategyType) (numGrids : Nat) (bottom top : ℚ) :
    List ℚ × ℚ :=
  let actualNumGrids := if numGrids % 2 == 0 then numGrids + 1 else numGrids
  let allGrids := linspace bottom top actualNumGrids
  if numGrids % 2 == 0 then
    let centralIndex := allGrids.length / 2
    let centralPrice := allGrids.getD centralIndex 0
    if strategy == StrategyType.HEDGED_GRID then
      (allGrids, centralPrice)
    else
      (allGrids.take centralIndex ++ allGrids.drop (centralIndex + 1), centralPrice)
  else
    let centralIndex := allGrids.length / 2
    (allGrids, allGrids.getD centralIndex 0)

/-- The SIMPLE_GRID buy subset of `initialize_grids_and_levels`
(grid_manager.py:48): levels at or below the central price. -/
def sortedBuyGridsSimple (grids : List ℚ) (central : ℚ) : List ℚ :=
  grids.filter (fun p => p ≤ central)

/-- The SIMPLE_GRID sell subset of `initialize_grids_and_levels`
(grid_manager.py:49): levels strictly above the central price. -/
def sortedSellGridsSimple (grids : List ℚ) (central : ℚ) : List ℚ :=
  grids.filter (fun p => central < p)

/-- The buy-side selection filter of `OrderManager.initialize_grid_orders`
(order_manager.py:61): keep buy levels strictly below the current price and
outside the 0.01 % tolerance band around the central price. -/
def initialBuyLevels (buyGrids : List ℚ) (central currentPrice : ℚ) : List ℚ :=
  buyGrids.filter (fun p => p < currentPrice ∧ ¬ |p - central| < central * (1 / 10000))

/-- The sell-side selection filter of `OrderManager.initialize_grid_orders`
(order_manager.py:121): keep sell levels strictly above the current price and
outside the 0.01 % tolerance band around the central price. -/
def initialSellLevels (sellGrids : List ℚ) (central currentPrice : ℚ) : List ℚ :=
  sellGrids.filter (fun p => currentPrice < p ∧ ¬ |p - central| < central * (1 / 10000))

/-- `GridManager.complete_order` (grid_manager.py:259) over a price-keyed list
of levels. The source mutates the completed level first and the paired level
second, so when the two coincide the paired assignment wins; the nested `if`
keeps that order. -/
def completeOrder (strategy : StrategyType) (g : List GridLevel) (lvl : GridLevel)
    (side : OrderSide) : List GridLevel :=
  match strategy, side with
  | StrategyType.SIMPLE_GRID, OrderSide.BUY =>
      g.map (fun l => if l.price == lvl.price
        then { l with state := GridCycleState.READY_TO_SELL } else l)
  | StrategyType.SIMPLE_GRID, OrderSide.SELL =>
      g.map (fun l => if l.price == lvl.price
        then { l with state := GridCycleState.READY_TO_BUY } else l)
  | StrategyType.HEDGED_GRID, OrderSide.BUY =>
      g.map (fun l =>
        if lvl.pairedSellLevel == some l.price
        then { l with state := GridCycleState.READY_TO_SELL }
        else if l.price == lvl.price
        then { l with state := GridCycleState.READY_TO_BUY_OR_SELL } else l)
  | StrategyType.HEDGED_GRID, OrderSide.SELL =>
      g.map (fun l =>
        if lvl.pairedBuyLevel == some l.price
        then { l with state := GridCycleState.READY_TO_BUY }
        else if l.price == lvl.price
        then { l with state := GridCycleState.READY_TO_BUY_OR_SELL } else l)

/-- State of the level stored at price `p`, if any. -/
def stateAt (g : List GridLevel) (p : ℚ) : Option GridCycleState :=
  (g.find? (fun l => l.price == p)).map (fun l => l.state)

/-! ## Simulator (`OrderManager.simulate_order_fills`, order_manager.py:518) -/

/-- The mutation of `OrderManager._simulate_fill` (order_manager.py:550):
`filled = amount`, `remaining = 0`, `status = CLOSED`, both timestamps set. -/
def fillOrder (o : Order) (ts : Int) : Order :=
  { o with filled := o.amount
           remaining := 0
           status := OrderStatus.CLOSED
           timestamp := ts
           lastTradeTimestamp := ts }

/-- The crossed-levels filter of `simulate_order_fills` (order_manager.py:534):
grid prices inside the bar's `[low, high]` range. -/
def crossedLevels (grids : List ℚ) (lowPrice highPrice : ℚ) : List ℚ :=
  grids.filter (fun l => lowPrice ≤ l ∧ l ≤ highPrice)

/-- `OrderManager.simulate_order_fills` (order_manager.py:518): every open
order whose side and price match a crossed level of the corresponding grid is
filled at the bar's timestamp; all other orders are untouched. -/
def simulateOrderFills (orders : List Order) (buyGrids sellGrids : List ℚ)
    (highPrice lowPrice : ℚ) (ts : Int) : List Order :=
  let crossedBuy := crossedLevels buyGrids lowPrice highPrice
  let crossedSell := crossedLevels sellGrids lowPrice highPrice
  orders.map (fun o =>
    if o.isOpen ∧ ((o.side == OrderSide.BUY ∧ o.price ∈ crossedBuy) ∨
                   (o.side == OrderSide.SELL ∧ o.price ∈ crossedSell))
    then fillOrder o ts else o)

/-! ## GridStrategy (`strategies/grid_trading_strategy.py`) -/

/-- `GridTradingStrategy._initialize_grid_orders_once`
(grid_trading_strategy.py:252). First component: the flag returned to the
loop; second component: whether the initial purchase and grid placement were
performed during this call. -/
def initGridOrdersOnce (currentPrice triggerPrice : ℚ) (alreadyInited : Bool)
    (lastPrice : Option ℚ) : Bool × Bool :=
  if alreadyInited then (true, false)
  else
    match lastPrice with
    | none => (false, false)
    | some lp =>
        if (lp ≤ triggerPrice ∧ triggerPrice ≤ currentPrice) ∨ lp = triggerPrice then
          (true, true)
        else (false, false)

/-- `GridTradingStrategy._execute_market_buy_order`
(grid_trading_strategy.py:707), backtest branch: direct balance mutation. -/
def executeMarketBuyOrder (s : Ledger) (currentPrice cryptoAmount : ℚ) : Ledger :=
  { s with balance := s.balance - cryptoAmount * currentPrice
           crypto := s.crypto + cryptoAmount }

/-- `GridTradingStrategy._execute_market_sell_order`
(grid_trading_strategy.py:723), backtest branch: direct balance mutation. -/
def executeMarketSellOrder (s : Ledger) (currentPrice cryptoAmount : ℚ) : Ledger :=
  { s with balance := s.balance + cryptoAmount * currentPrice
           crypto := s.crypto - cryptoAmount }

/-- `GridTradingStrategy._rebalance_for_top_boundary`
(grid_trading_strategy.py:621): market-buy or market-sell the 50/50 imbalance
when it exceeds the 1 % threshold and the 0.001-crypto minimum. -/
def rebalanceForTopBoundary (s : Ledger) (currentPrice : ℚ) : Ledger :=
  let availableFiat := s.balance
  let availableCrypto := s.crypto
  let cryptoValue := availableCrypto * currentPrice
  let totalPortfolioValue := getTotalBalanceValue s currentPrice
  let targetFiat := totalPortfolioValue * (1 / 2)
  let targetCryptoValue := totalPortfolioValue * (1 / 2)
  let fiatExcess := availableFiat - targetFiat
  let cryptoShortageValue := targetCryptoValue - cryptoValue
  let threshold := totalPortfolioValue * (1 / 100)
  if fiatExcess > threshold ∧ cryptoShortageValue > 0 then
    let cryptoToBuy := cryptoShortageValue / currentPrice
    if cryptoToBuy > 1 / 1000 then executeMarketBuyOrder s currentPrice cryptoToBuy else s
  else if cryptoShortageValue < -threshold ∧ fiatExcess < 0 then
    let cryptoToSell := -cryptoShortageValue / currentPrice
    if cryptoToSell > 1 / 1000 then executeMarketSellOrder s currentPrice cryptoToSell else s
  else s

/-- The joint state the cancel step works on: the order book's orders and the
balance ledger. -/
structure BotState where
  orders : List Order
  ledger : Ledger
  deriving DecidableEq, Repr

/-- The try-block of `GridTradingStrategy._cancel_all_pending_orders`
(grid_trading_strategy.py:552) run until its first uncaught error. With open
orders present it marks them CANCELED and releases all reserved funds, then
calls `order_book.clear_all_orders()` — a method `OrderBook`
(order_book.py:5-66) does not define, so an `AttributeError` is raised there
and the book keeps every entry. The second component is the pending error. -/
def cancelAllPendingOrdersBody (st : BotState) : BotState × Option Nat :=
  let openOrders := st.orders.filter (fun o => o.isOpen)
  if openOrders.isEmpty then (st, none)
  else
    let orders1 := st.orders.map (fun o =>
      if o.isOpen then { o with status := OrderStatus.CANCELED } else o)
    let ledger1 := releaseAllReservedFunds st.ledger
    (⟨orders1, ledger1⟩, some 1)

/-- `GridTradingStrategy._cancel_all_pending_orders`
(grid_trading_strategy.py:552): the whole body sits in a
`try/except Exception` that only logs, so no error reaches the caller. The
Bool records whether an exception escapes (always `false`). -/
def cancelAllPendingOrders (st : BotState) : BotState × Bool :=
  ((cancelAllPendingOrdersBody st).1, false)

/-! ## Dynamic bottom-boundary grid extension
(`_add_grid_levels_below` / `_setup_profit_taking_for_new_level`,
grid_trading_strategy.py:478-537) -/

/-- The grid data the extension path touches: `price_grids` (kept sorted),
`grid_levels` in dict-insertion order, and `sorted_buy_grids`. -/
structure GridState where
  priceGrids : List ℚ
  gridLevels : List GridLevel
  sortedBuyGrids : List ℚ
  deriving DecidableEq, Repr

/-- `GridTradingStrategy._calculate_current_grid_spacing`
(grid_trading_strategy.py:469): difference of the two lowest grid prices,
default 100 when fewer than two levels exist. -/
def calcCurrentGridSpacing (priceGrids : List ℚ) : ℚ :=
  if priceGrids.length < 2 then 100
  else
    let s := priceGrids.insertionSort (· ≤ ·)
    |s.getD 1 0 - s.getD 0 0|

/-- One step of the argmin scan in `_setup_profit_taking_for_new_level`
(grid_trading_strategy.py:524): consider a level only when its price is
strictly above the new level's, and replace the best candidate only on a
strictly smaller distance to `target` (so the first minimiser wins). -/
def closestStep (newPrice target : ℚ) (acc : Option GridLevel) (l : GridLevel) :
    Option GridLevel :=
  if newPrice < l.price then
    match acc with
    | none => some l
    | some best => if |l.price - target| < |best.price - target| then some l else acc
  else acc

/-- The argmin scan of `_setup_profit_taking_for_new_level`
(grid_trading_strategy.py:524): among levels strictly above `newPrice`, the
first one minimising the distance to `target`. -/
def closestSellLevelAbove (levels : List GridLevel) (newPrice target : ℚ) :
    Option GridLevel :=
  levels.foldl (closestStep newPrice target) none

/-- `GridTradingStrategy._setup_profit_taking_for_new_level`
(grid_trading_strategy.py:512): only for the HEDGED_GRID strategy, pair the
new buy level with the existing higher level closest to one spacing above. -/
def setupProfitTakingForNewLevel (strategy : StrategyType) (gs : GridState)
    (newLevel : GridLevel) : GridLevel :=
  if strategy == StrategyType.HEDGED_GRID then
    let spacing := calcCurrentGridSpacing gs.priceGrids
    let targetSellPrice := newLevel.price + spacing
    match closestSellLevelAbove gs.gridLevels newLevel.price targetSellPrice with
    | some l => { newLevel with pairedSellLevel := some l.price }
    | none => newLevel
  else newLevel

/-- One iteration of the loop in `GridTradingStrategy._add_grid_levels_below`
(grid_trading_strategy.py:481): append the price (keeping `price_grids` and
`sorted_buy_grids` sorted), create the level READY_TO_BUY, and run the
profit-taking setup against the grid that already contains the new level. -/
def addOneGridLevelBelow (strategy : StrategyType) (gs : GridState) (price : ℚ) :
    GridState :=
  let pgSorted := (gs.priceGrids ++ [price]).insertionSort (· ≤ ·)
  let newLevel0 : GridLevel := ⟨price, GridCycleState.READY_TO_BUY, none, none⟩
  let buySorted := (gs.sortedBuyGrids ++ [price]).insertionSort (· ≤ ·)
  let gs1 : GridState := ⟨pgSorted, gs.gridLevels ++ [newLevel0], buySorted⟩
  let newLevel1 := setupProfitTakingForNewLevel strategy gs1 newLevel0
  ⟨pgSorted, gs.gridLevels ++ [newLevel1], buySorted⟩

/-! ## EventBus (`core/bot_management/event_bus.py`)

`publish` (event_bus.py:53) gathers one `_safe_invoke_async` wrapper per async
callback. Each wrapper only calls `asyncio.create_task(_invoke_callback cb)`
and finishes (event_bus.py:95-111); the created inner task runs the callback
body and catches its exceptions (event_bus.py:113-122). We model the single
asyncio loop as a FIFO ready queue. A callback body is a list of atomic
segments separated by suspension points; a `true` segment raises. The initial
queue holds the n inner tasks (enqueued by the wrappers, in subscription
order) followed by the resumption of `publish` itself, which the gather
schedules once every wrapper — not every callback — has finished. -/

/-- An entry of the ready queue: a callback task (callback index, segments
already executed, remaining segments) or the resumption of `publish`. -/
inductive BusEntry where
  | cb (idx : Nat) (done : Nat) (segs : List Bool)
  | ret
  deriving DecidableEq, Repr

/-- Completion record of one callback task: its index, how many segments it
executed, and whether it stopped because a segment raised (the exception is
caught and logged by `_invoke_callback`, never propagated). -/
structure CbRec where
  idx : Nat
  executed : Nat
  raised : Bool
  deriving DecidableEq, Repr

/-- Number of segments a callback body executes before finishing: everything
up to and including the first raising segment. -/
def execLen : List Bool → Nat
  | [] => 0
  | s :: t => if s then 1 else 1 + execLen t

/-- Whether running the callback body hits a raising segment. -/
def raisesIn : List Bool → Bool
  | [] => false
  | s :: t => s || raisesIn t

/-- Queue-measure used for termination: one unit per entry plus one per
pending segment. -/
def entryWeight : BusEntry → Nat
  | BusEntry.cb _ _ segs => segs.length + 1
  | BusEntry.ret => 1

/-- Run the FIFO loop to exhaustion: pop an entry, execute one segment of it,
re-enqueue it at the back if segments remain, and record it when it finishes
(normally or by a caught exception). -/
def runQueue : List BusEntry → List CbRec
  | [] => []
  | BusEntry.ret :: rest => runQueue rest
  | BusEntry.cb i d [] :: rest => ⟨i, d, false⟩ :: runQueue rest
  | BusEntry.cb i d (s :: t) :: rest =>
      if s then ⟨i, d + 1, true⟩ :: runQueue rest
      else if t.isEmpty then ⟨i, d + 1, false⟩ :: runQueue rest
      else runQueue (rest ++ [BusEntry.cb i (d + 1) t])
  termination_by q => (q.map entryWeight).sum
  decreasing_by
    all_goals simp [entryWeight, List.map_append, List.sum_append]
    omega

/-- Run the FIFO loop until the `publish` resumption is dequeued — the moment
`publish` returns. Yields the records of the callbacks finished by then and
the queue of still-pending tasks. -/
def runToReturn : List BusEntry → List CbRec × List BusEntry
  | [] => ([], [])
  | BusEntry.ret :: rest => ([], rest)
  | BusEntry.cb i d [] :: rest =>
      let p := runToReturn rest
      (⟨i, d, false⟩ :: p.1, p.2)
  | BusEntry.cb i d (s :: t) :: rest =>
      if s then
        let p := runToReturn rest
        (⟨i, d + 1, true⟩ :: p.1, p.2)
      else if t.isEmpty then
        let p := runToReturn rest
        (⟨i, d + 1, false⟩ :: p.1, p.2)
      else runToReturn (rest ++ [BusEntry.cb i (d + 1) t])
  termination_by q => (q.map entryWeight).sum
  decreasing_by
    all_goals simp [entryWeight, List.map_append, List.sum_append]
    omega

/-- `EventBus.publish` over callback bodies `cbs` (one list of segments per
subscribed async callback). First component: callbacks already finished at the
moment `publish` returns; second component: the records of all callbacks after
the loop has drained the tasks `publish` left behind. -/
def publishModel (cbs : List (List Bool)) : List CbRec × List CbRec :=
  let q0 := (cbs.enum.map (fun p => BusEntry.cb p.1 0 p.2)) ++ [BusEntry.ret]
  let p := runToReturn q0
  (p.1, p.1 ++ runQueue p.2)

/-- Which record a task entry eventually produces once the loop drains. -/
def entryFinalRec : BusEntry → Option CbRec
  | BusEntry.cb i d segs => some ⟨i, d + execLen segs, raisesIn segs⟩
  | BusEntry.ret => none

/-- Record produced during `publish` itself by a callback that finishes within
its first segment (empty body, single segment, or first segment raising). -/
def phase1Rec (p : Nat × List Bool) : Option CbRec :=
  match p.2 with
  | [] => some ⟨p.1, 0, false⟩
  | s :: t => if s then some ⟨p.1, 1, true⟩
              else if t.isEmpty then some ⟨p.1, 1, false⟩
              else none

/-- Task still pending when `publish` returns: a callback of at least two
segments whose first segment did not raise has executed exactly one. -/
def phase1Cont (p : Nat × List Bool) : Option BusEntry :=
  match p.2 with
  | [] => none
  | s :: t => if s then none
              else if t.isEmpty then none
              else some (BusEntry.cb p.1 1 t)

/-- Final record of one callback body: runs to its first raising segment or to
the end, independently of every other callback. -/
def finalRec (p : Nat × List Bool) : CbRec :=
  ⟨p.1, execLen p.2, raisesIn p.2⟩

/-! ## Theorems -/

/-- C2: on a filled BUY of `(qty, price)` the fill handler computes
`fee = trading_fee · qty · price`, subtracts `qty·price + fee` from
`reserved_fiat` clamping it at 0, takes any shortfall out of `fiat`, adds
`qty` to `crypto` and `fee` to `total_fees`, and changes no other ledger
field. The clamp-and-shortfall branch is captured by the `max`/`min` closed
form of the updated state. -/
theorem buy_fill_update_spec (feeRate qty price : ℚ) (s : Ledger) :
    updateAfterBuyOrderFilled feeRate s qty price =
      { s with crypto := s.crypto + qty
               totalFees := s.totalFees + feeRate * (qty * price)
               reservedFiat := max 0 (s.reservedFiat - (qty * price + feeRate * (qty * price)))
               balance := s.balance + min 0 (s.reservedFiat - (qty * price + feeRate * (qty * price))) } := by
  simp only [updateAfterBuyOrderFilled, calculateFee]
  split_ifs with h
  · rw [min_eq_right (le_of_lt h), max_eq_left (le_of_lt h)]
  · push_neg at h
    rw [min_eq_left h, max_eq_right h]
    simp

/-- C6: the initial purchase and grid placement happen at a step iff the grid
is not yet initialized, a previous price exists and the trigger-crossing
condition `last ≤ trigger ≤ current ∨ last = trigger` holds; with no previous
price nothing happens, even at `current = trigger`. -/
theorem grid_init_trigger_iff (currentPrice triggerPrice : ℚ) (alreadyInited : Bool)
    (lastPrice : Option ℚ) :
    ((initGridOrdersOnce currentPrice triggerPrice alreadyInited lastPrice).2 = true ↔
      (alreadyInited = false ∧ ∃ lp, lastPrice = some lp ∧
        ((lp ≤ triggerPrice ∧ triggerPrice ≤ currentPrice) ∨ lp = triggerPrice))) ∧
    (initGridOrdersOnce triggerPrice triggerPrice false none).2 = false := by
  constructor
  · cases alreadyInited with
    | true => simp [initGridOrdersOnce]
    | false =>
        cases lastPrice with
        | none => simp [initGridOrdersOnce]
        | some lp =>
            simp only [initGridOrdersOnce, Bool.false_eq_true, if_false]
            split_ifs with h
            · simp [h]
            · simp [h]
  · simp [initGridOrdersOnce]

/-- C10: a successful buy reservation, a successful sell reservation and a
release of all reservations each leave the total account value
`fiat + reserved_fiat + (crypto + reserved_crypto)·P` unchanged, and a
reservation that raises an insufficient-balance error leaves the ledger
untouched. (The conservation equalities hold on the returned ledger in the
error case too, because the ledger is returned unchanged.) -/
theorem reservation_value_conservation (s : Ledger) (amount qty P : ℚ) :
    getTotalBalanceValue (reserveFundsForBuy s amount).1 P = getTotalBalanceValue s P ∧
    getTotalBalanceValue (reserveFundsForSell s qty).1 P = getTotalBalanceValue s P ∧
    getTotalBalanceValue (releaseAllReservedFunds s) P = getTotalBalanceValue s P ∧
    ((reserveFundsForBuy s amount).2 = true → (reserveFundsForBuy s amount).1 = s) ∧
    ((reserveFundsForSell s qty).2 = true → (reserveFundsForSell s qty).1 = s) := by
  refine ⟨?_, ?_, ?_, ?_, ?_⟩
  · simp only [reserveFundsForBuy]
    split_ifs with h
    · rfl
    · simp only [getTotalBalanceValue, getAdjustedFiatBalance, getAdjustedCryptoBalance]
      ring
  · simp only [reserveFundsForSell]
    split_ifs with h
    · rfl
    · simp only [getTotalBalanceValue, getAdjustedFiatBalance, getAdjustedCryptoBalance]
      ring
  · simp only [releaseAllReservedFunds, getTotalBalanceValue, getAdjustedFiatBalance,
      getAdjustedCryptoBalance]
    ring
  · simp only [reserveFundsForBuy]
    split_ifs with h
    · intro _
      rfl
    · intro hfalse
      exact absurd hfalse (by simp)
  · simp only [reserveFundsForSell]
    split_ifs with h
    · intro _
      rfl
    · intro hfalse
      exact absurd hfalse (by simp)

/-- C10 witness: at the empty ledger both reservations raise and the ledger is
returned untouched, and value conservation holds concretely. -/
theorem reservation_value_conservation_witness :
    getTotalBalanceValue (reserveFundsForBuy ⟨0, 0, 0, 0, 0⟩ 1).1 3 =
      getTotalBalanceValue ⟨0, 0, 0, 0, 0⟩ 3 ∧
    (reserveFundsForBuy ⟨0, 0, 0, 0, 0⟩ 1).1 = ⟨0, 0, 0, 0, 0⟩ ∧
    (reserveFundsForSell ⟨0, 0, 0, 0, 0⟩ 1).1 = ⟨0, 0, 0, 0, 0⟩ :=
  ⟨(reservation_value_conservation ⟨0, 0, 0, 0, 0⟩ 1 1 3).1,
   (reservation_value_conservation ⟨0, 0, 0, 0, 0⟩ 1 1 3).2.2.2.1
     (by norm_num [reserveFundsForBuy]),
   (reservation_value_conservation ⟨0, 0, 0, 0, 0⟩ 1 1 3).2.2.2.2
     (by norm_num [reserveFundsForSell])⟩

/-- C3 counterexample: for N=4, range [100,200], arithmetic, simple_grid the
code inserts a fifth midpoint level and removes it again, yielding price
levels 100, 125, 175, 200 — not 100, 133.33, 166.67, 200 (neither read as
100+100/3, 100+200/3 nor as the two-decimal values 133.33, 166.67). -/
theorem grid_levels_s1_counterexample :
    priceGridsArithmetic StrategyType.SIMPLE_GRID 4 100 200 = ([100, 125, 175, 200], 150) ∧
    priceGridsArithmetic StrategyType.SIMPLE_GRID 4 100 200 ≠
      ([100, 400 / 3, 500 / 3, 200], 150) ∧
    priceGridsArithmetic StrategyType.SIMPLE_GRID 4 100 200 ≠
      ([100, 13333 / 100, 16667 / 100, 200], 150) := by
  have h : priceGridsArithmetic StrategyType.SIMPLE_GRID 4 100 200 =
      ([100, 125, 175, 200], 150) := by
    have hr : List.range 5 = [0, 1, 2, 3, 4] := rfl
    norm_num [priceGridsArithmetic, linspace, hr,
      show (StrategyType.SIMPLE_GRID == StrategyType.HEDGED_GRID) = false from rfl]
  refine ⟨h, ?_, ?_⟩
  · rw [h]
    simp only [ne_eq, Prod.mk.injEq, List.cons.injEq]
    norm_num
  · rw [h]
    simp only [ne_eq, Prod.mk.injEq, List.cons.injEq]
    norm_num

/-- C3 amended: for N=4, range [100,200], arithmetic spacing, simple_grid,
grid initialization produces exactly the price levels 100, 125, 175, 200 with
central (trigger) price 150, so that initial placement at the trigger puts buy
limits at 100 and 125 and sell limits at 175 and 200. -/
theorem grid_levels_s1_amended :
    priceGridsArithmetic StrategyType.SIMPLE_GRID 4 100 200 = ([100, 125, 175, 200], 150) ∧
    sortedBuyGridsSimple [100, 125, 175, 200] 150 = [100, 125] ∧
    sortedSellGridsSimple [100, 125, 175, 200] 150 = [175, 200] ∧
    initialBuyLevels [100, 125] 150 150 = [100, 125] ∧
    initialSellLevels [175, 200] 150 150 = [175, 200] := by
  refine ⟨?_, ?_, ?_, ?_, ?_⟩
  · have hr : List.range 5 = [0, 1, 2, 3, 4] := rfl
    norm_num [priceGridsArithmetic, linspace, hr,
      show (StrategyType.SIMPLE_GRID == StrategyType.HEDGED_GRID) = false from rfl]
  · norm_num [sortedBuyGridsSimple, List.filter]
  · norm_num [sortedSellGridsSimple, List.filter]
  · norm_num [initialBuyLevels, List.filter, abs_lt]
  · norm_num [initialSellLevels, List.filter, abs_lt]

/-- The dynamic-restart rebalance keeps all four balance fields non-negative:
both market legs are sized from the measured imbalance, and the guards bound
them by the available balances. -/
lemma rebalance_top_nonneg (s : Ledger) (P : ℚ) (hs : s.NonNeg) (hP : 0 < P) :
    (rebalanceForTopBoundary s P).NonNeg := by
  obtain ⟨hb, hc, hrf, hrc⟩ := hs
  have hcp : 0 ≤ s.crypto * P := mul_nonneg hc hP.le
  have htot : 0 ≤ getTotalBalanceValue s P := by
    simp only [getTotalBalanceValue, getAdjustedFiatBalance, getAdjustedCryptoBalance]
    have := mul_nonneg (add_nonneg hc hrc) hP.le
    linarith
  simp only [rebalanceForTopBoundary, executeMarketBuyOrder, executeMarketSellOrder]
  split_ifs with h1 h2 h3 h4
  · obtain ⟨h1a, h1b⟩ := h1
    refine ⟨?_, ?_, hrf, hrc⟩
    · simp only
      rw [div_mul_cancel₀ _ (ne_of_gt hP)]
      linarith
    · simp only
      have := div_nonneg (le_of_lt h1b) hP.le
      linarith
  · exact ⟨hb, hc, hrf, hrc⟩
  · obtain ⟨h3a, h3b⟩ := h3
    refine ⟨?_, ?_, hrf, hrc⟩
    · simp only
      rw [div_mul_cancel₀ _ (ne_of_gt hP)]
      linarith
    · simp only
      rw [sub_nonneg, div_le_iff₀ hP]
      linarith
  · exact ⟨hb, hc, hrf, hrc⟩
  · exact ⟨hb, hc, hrf, hrc⟩

/-- The initial purchase at the quantity the code computes (a 50/50 target
allocation clamped to the fiat balance) keeps all four fields non-negative for
any fee rate at most 1. -/
lemma initial_purchase_nonneg (r : ℚ) (s : Ledger) (P : ℚ) (hs : s.NonNeg)
    (hr0 : 0 ≤ r) (hr1 : r ≤ 1) (hP : 0 < P) :
    (updateAfterInitialPurchase r s (getInitialOrderQuantity s.balance s.crypto P) P
      (getInitialOrderQuantity s.balance s.crypto P)).NonNeg := by
  obtain ⟨hb, hc, hrf, hrc⟩ := hs
  have hcp : 0 ≤ s.crypto * P := mul_nonneg hc hP.le
  simp only [updateAfterInitialPurchase, getInitialOrderQuantity, calculateFee]
  have hcl0 : (0 : ℚ) ≤ max 0 (min (s.balance + s.crypto * P - s.crypto * P - s.crypto * P
      + s.crypto * P) s.balance) := le_max_left _ _
  refine ⟨?_, ?_, hrf, hrc⟩
  · simp only
    rw [div_mul_cancel₀ _ (ne_of_gt hP)]
    have hfta : (s.balance + s.crypto * P) / 2 - s.crypto * P ≤ s.balance / 2 := by
      linarith
    have hmin : min ((s.balance + s.crypto * P) / 2 - s.crypto * P) s.balance ≤
        s.balance / 2 := le_trans (min_le_left _ _) hfta
    have hmax : max 0 (min ((s.balance + s.crypto * P) / 2 - s.crypto * P) s.balance) ≤
        s.balance / 2 := max_le (by linarith) hmin
    have h0 : (0 : ℚ) ≤ max 0 (min ((s.balance + s.crypto * P) / 2 - s.crypto * P)
        s.balance) := le_max_left _ _
    nlinarith
  · simp only
    have h0 : (0 : ℚ) ≤ max 0 (min ((s.balance + s.crypto * P) / 2 - s.crypto * P)
        s.balance) := le_max_left _ _
    have := div_nonneg h0 hP.le
    linarith

/-- C1 amended: every ledger operation of a run keeps `crypto`,
`reserved_fiat` and `reserved_crypto` non-negative, and all of them except the
two fill updates keep all four fields non-negative unconditionally; a sell
fill keeps all four non-negative whenever the filled quantity is covered by
reserved plus available crypto (which the per-order reservation taken at
placement ensures), and a buy fill keeps `fiat ≥ 0` only when reserved fiat
plus fiat covers `qty·price + fee` — otherwise fiat goes negative by the
uncovered part of the fee, as the counterexample shows. -/
theorem ledger_nonneg_amended (s : Ledger) (r a q p P : ℚ)
    (hs : s.NonNeg) (hr0 : 0 ≤ r) (hr1 : r ≤ 1) (ha : 0 ≤ a) (hq : 0 ≤ q)
    (hp : 0 < p) (hP : 0 < P) :
    ((reserveFundsForBuy s a).1).NonNeg ∧
    ((reserveFundsForSell s q).1).NonNeg ∧
    (releaseAllReservedFunds s).NonNeg ∧
    (rebalanceForTopBoundary s P).NonNeg ∧
    (updateAfterInitialPurchase r s (getInitialOrderQuantity s.balance s.crypto P) P
      (getInitialOrderQuantity s.balance s.crypto P)).NonNeg ∧
    (0 ≤ (updateAfterBuyOrderFilled r s q p).crypto ∧
     0 ≤ (updateAfterBuyOrderFilled r s q p).reservedFiat ∧
     0 ≤ (updateAfterBuyOrderFilled r s q p).reservedCrypto) ∧
    (q * p + calculateFee r (q * p) ≤ s.balance + s.reservedFiat →
      (updateAfterBuyOrderFilled r s q p).NonNeg) ∧
    (0 ≤ (updateAfterSellOrderFilled r s q p).balance ∧
     0 ≤ (updateAfterSellOrderFilled r s q p).reservedFiat ∧
     0 ≤ (updateAfterSellOrderFilled r s q p).reservedCrypto) ∧
    (q ≤ s.reservedCrypto + s.crypto → (updateAfterSellOrderFilled r s q p).NonNeg) := by
  obtain ⟨hb, hc, hrf, hrc⟩ := hs
  have hqp : 0 ≤ q * p := mul_nonneg hq hp.le
  have hfee : 0 ≤ r * (q * p) := mul_nonneg hr0 hqp
  have hfee1 : r * (q * p) ≤ q * p := mul_le_of_le_one_left hqp hr1
  refine ⟨?_, ?_, ?_, ?_, ?_, ?_, ?_, ?_, ?_⟩
  · simp only [reserveFundsForBuy]
    split_ifs with h
    · exact ⟨hb, hc, hrf, hrc⟩
    · push_neg at h
      refine ⟨?_, ?_, ?_, ?_⟩ <;> simp only <;> linarith
  · simp only [reserveFundsForSell]
    split_ifs with h
    · exact ⟨hb, hc, hrf, hrc⟩
    · push_neg at h
      refine ⟨?_, ?_, ?_, ?_⟩ <;> simp only <;> linarith
  · refine ⟨?_, ?_, ?_, ?_⟩ <;> simp only [releaseAllReservedFunds] <;> linarith
  · exact rebalance_top_nonneg s P ⟨hb, hc, hrf, hrc⟩ hP
  · exact initial_purchase_nonneg r s P ⟨hb, hc, hrf, hrc⟩ hr0 hr1 hP
  · simp only [updateAfterBuyOrderFilled, calculateFee]
    split_ifs with h
    · refine ⟨?_, ?_, ?_⟩ <;> simp only <;> linarith
    · push_neg at h
      refine ⟨?_, ?_, ?_⟩ <;> simp only <;> linarith
  · intro hcov
    simp only [calculateFee] at hcov
    simp only [updateAfterBuyOrderFilled, calculateFee]
    split_ifs with h
    · refine ⟨?_, ?_, ?_, ?_⟩ <;> simp only <;> linarith
    · push_neg at h
      refine ⟨?_, ?_, ?_, ?_⟩ <;> simp only <;> linarith
  · simp only [updateAfterSellOrderFilled, calculateFee]
    split_ifs with h
    · refine ⟨?_, ?_, ?_⟩ <;> simp only <;> linarith
    · push_neg at h
      refine ⟨?_, ?_, ?_⟩ <;> simp only <;> linarith
  · intro hcov
    simp only [updateAfterSellOrderFilled, calculateFee]
    split_ifs with h
    · refine ⟨?_, ?_, ?_, ?_⟩ <;> simp only <;> linarith
    · push_neg at h
      refine ⟨?_, ?_, ?_, ?_⟩ <;> simp only <;> linarith

/-- C1 amended witness: all hypotheses discharged at the ledger
(100 fiat, 1 crypto, 10 reserved fiat, 2 reserved crypto) with a 1 % fee:
reservation, rebalance and both covered fill updates preserve
non-negativity. -/
theorem ledger_nonneg_amended_witness :
    ((reserveFundsForBuy ⟨100, 1, 10, 2, 0⟩ 5).1).NonNeg ∧
    (rebalanceForTopBoundary ⟨100, 1, 10, 2, 0⟩ 40).NonNeg ∧
    (updateAfterBuyOrderFilled (1 / 100) ⟨100, 1, 10, 2, 0⟩ 1 50).NonNeg ∧
    (updateAfterSellOrderFilled (1 / 100) ⟨100, 1, 10, 2, 0⟩ 1 50).NonNeg := by
  have h := ledger_nonneg_amended ⟨100, 1, 10, 2, 0⟩ (1 / 100) 5 1 50 40
    (by norm_num [Ledger.NonNeg]) (by norm_num) (by norm_num) (by norm_num)
    (by norm_num) (by norm_num) (by norm_num)
  exact ⟨h.1, h.2.2.2.1, h.2.2.2.2.2.2.1 (by norm_num [calculateFee]),
    h.2.2.2.2.2.2.2.2 (by norm_num)⟩

/-- C1 counterexample: a reachable two-step run violates `fiat ≥ 0`. Start
with 100 fiat, reserve 100 for a buy of 1 unit at price 100 (the placement
reserves exactly `qty·price`, with no fee buffer), then let that buy order
fill with a 0.1 % trading fee: the fill subtracts `qty·price + fee` from
`reserved_fiat`, clamps the pool at 0 and takes the 0.1 shortfall out of
`fiat`, which ends at −1/10 < 0. -/
theorem fiat_nonneg_counterexample :
    (reserveFundsForBuy ⟨100, 0, 0, 0, 0⟩ 100).2 = false ∧
    ((reserveFundsForBuy ⟨100, 0, 0, 0, 0⟩ 100).1).NonNeg ∧
    (updateAfterBuyOrderFilled (1 / 1000)
      (reserveFundsForBuy ⟨100, 0, 0, 0, 0⟩ 100).1 1 100).balance = -(1 / 10) ∧
    ¬ (updateAfterBuyOrderFilled (1 / 1000)
      (reserveFundsForBuy ⟨100, 0, 0, 0, 0⟩ 100).1 1 100).NonNeg := by
  have hres : (reserveFundsForBuy ⟨100, 0, 0, 0, 0⟩ 100) = (⟨0, 0, 100, 0, 0⟩, false) := by
    simp only [reserveFundsForBuy]
    norm_num
  refine ⟨by rw [hres], by rw [hres]; simp [Ledger.NonNeg], ?_, ?_⟩
  · rw [hres]
    simp only [updateAfterBuyOrderFilled, calculateFee]
    norm_num
  · rw [hres]
    simp only [updateAfterBuyOrderFilled, calculateFee, Ledger.NonNeg]
    norm_num

/-- C5: a replay bar with bounds `(high, low)` and timestamp `ts` fills
exactly those open orders whose side is BUY with price in `sorted_buy_grids`
inside `[low, high]`, or SELL with price in `sorted_sell_grids` inside
`[low, high]`; each such order gets `filled = amount`, `remaining = 0`,
`status = CLOSED` and both timestamps set to `ts`; every other order is left
unchanged. -/
theorem simulate_order_fills_spec (orders : List Order) (buyGrids sellGrids : List ℚ)
    (highPrice lowPrice : ℚ) (ts : Int) (i : Nat) (o : Order)
    (h : orders[i]? = some o) :
    (simulateOrderFills orders buyGrids sellGrids highPrice lowPrice ts).length =
      orders.length ∧
    ((o.status = OrderStatus.OPEN ∧
      ((o.side = OrderSide.BUY ∧ o.price ∈ buyGrids ∧
          lowPrice ≤ o.price ∧ o.price ≤ highPrice) ∨
       (o.side = OrderSide.SELL ∧ o.price ∈ sellGrids ∧
          lowPrice ≤ o.price ∧ o.price ≤ highPrice))) →
      (simulateOrderFills orders buyGrids sellGrids highPrice lowPrice ts)[i]? =
        some { o with filled := o.amount
                      remaining := 0
                      status := OrderStatus.CLOSED
                      timestamp := ts
                      lastTradeTimestamp := ts }) ∧
    (¬ (o.status = OrderStatus.OPEN ∧
      ((o.side = OrderSide.BUY ∧ o.price ∈ buyGrids ∧
          lowPrice ≤ o.price ∧ o.price ≤ highPrice) ∨
       (o.side = OrderSide.SELL ∧ o.price ∈ sellGrids ∧
          lowPrice ≤ o.price ∧ o.price ≤ highPrice))) →
      (simulateOrderFills orders buyGrids sellGrids highPrice lowPrice ts)[i]? = some o) := by
  have hiff : (Order.isOpen o = true ∧
      (((o.side == OrderSide.BUY) = true ∧
          o.price ∈ crossedLevels buyGrids lowPrice highPrice) ∨
       ((o.side == OrderSide.SELL) = true ∧
          o.price ∈ crossedLevels sellGrids lowPrice highPrice))) ↔
      (o.status = OrderStatus.OPEN ∧
       ((o.side = OrderSide.BUY ∧ o.price ∈ buyGrids ∧
           lowPrice ≤ o.price ∧ o.price ≤ highPrice) ∨
        (o.side = OrderSide.SELL ∧ o.price ∈ sellGrids ∧
           lowPrice ≤ o.price ∧ o.price ≤ highPrice))) := by
    simp only [Order.isOpen, beq_iff_eq, crossedLevels, List.mem_filter,
      decide_eq_true_eq]
    try tauto
  refine ⟨by simp [simulateOrderFills], ?_, ?_⟩
  · intro hc
    simp only [simulateOrderFills, List.getElem?_map, h, Option.map_some']
    rw [if_pos (hiff.mpr hc)]
    rfl
  · intro hc
    simp only [simulateOrderFills, List.getElem?_map, h, Option.map_some']
    rw [if_neg (fun hx => hc (hiff.mp hx))]

/-- C5 witness: one open BUY limit at price 100 with buy grid [100] is filled
by the bar (low 90, high 110, ts 5); the closed order carries
`filled = amount`, `remaining = 0`, `CLOSED` and both timestamps 5. -/
theorem simulate_order_fills_spec_witness :
    (simulateOrderFills [⟨1, OrderStatus.OPEN, OrderType.LIMIT, OrderSide.BUY,
        100, 2, 0, 2, 0, 0⟩] [100] [] 110 90 5)[0]? =
      some ⟨1, OrderStatus.CLOSED, OrderType.LIMIT, OrderSide.BUY, 100, 2, 2, 0, 5, 5⟩ :=
  (simulate_order_fills_spec [⟨1, OrderStatus.OPEN, OrderType.LIMIT, OrderSide.BUY,
      100, 2, 0, 2, 0, 0⟩] [100] [] 110 90 5 0 _ rfl).2.1
    ⟨rfl, Or.inl ⟨rfl, by norm_num, by norm_num, by norm_num⟩⟩

/-- `find?` over a price-preserving map: the found element is the image of the
element found in the original list. -/
lemma find?_map_price_preserving (f : GridLevel → GridLevel)
    (hf : ∀ l, (f l).price = l.price) (g : List GridLevel) (p : ℚ) :
    (g.map f).find? (fun l => l.price == p) =
      (g.find? (fun l => l.price == p)).map f := by
  induction g with
  | nil => rfl
  | cons a t ih =>
      rw [List.map_cons, List.find?_cons, List.find?_cons]
      have hpa : ((f a).price == p) = (a.price == p) := by rw [hf]
      simp only [hpa]
      cases h : (a.price == p) <;> simp [h, ih]

/-- `stateAt` after a price-preserving rewrite of every level. -/
lemma stateAt_map_price_preserving (f : GridLevel → GridLevel)
    (hf : ∀ l, (f l).price = l.price) (g : List GridLevel) (p : ℚ) :
    stateAt (g.map f) p = (g.find? (fun l => l.price == p)).map (fun l => (f l).state) := by
  simp only [stateAt, find?_map_price_preserving f hf, Option.map_map]
  rfl

/-- A price present in the grid is always found. -/
lemma find?_at_price_exists (g : List GridLevel) (p : ℚ) (hex : ∃ l ∈ g, l.price = p) :
    ∃ l0, g.find? (fun l => l.price == p) = some l0 ∧ l0.price = p := by
  obtain ⟨l, hl, hlp⟩ := hex
  have hsome : (g.find? (fun l => l.price == p)).isSome := by
    rw [List.find?_isSome]
    exact ⟨l, hl, by simp [hlp]⟩
  obtain ⟨l0, hl0⟩ := Option.isSome_iff_exists.mp hsome
  exact ⟨l0, hl0, by simpa using List.find?_some hl0⟩

/-- After a price-preserving rewrite that sends every level stored at `p` to
state `st`, the state stored at `p` is the image of the old one. -/
lemma stateAt_map_mapped (f : GridLevel → GridLevel) (hf : ∀ l, (f l).price = l.price)
    (g : List GridLevel) (p : ℚ) (st : GridCycleState)
    (hval : ∀ l0, l0.price = p → (f l0).state = st) :
    stateAt (g.map f) p = (stateAt g p).map (fun _ => st) := by
  rw [stateAt_map_price_preserving f hf]
  simp only [stateAt]
  cases hfind : g.find? (fun l => l.price == p) with
  | none => simp
  | some l1 =>
      have hp1 : l1.price = p := by simpa using List.find?_some hfind
      simp [hval l1 hp1]

/-- As `stateAt_map_mapped`, with the price known to be present. -/
lemma stateAt_map_found (f : GridLevel → GridLevel) (hf : ∀ l, (f l).price = l.price)
    (g : List GridLevel) (p : ℚ) (st : GridCycleState)
    (hex : ∃ l ∈ g, l.price = p)
    (hval : ∀ l0, l0.price = p → (f l0).state = st) :
    stateAt (g.map f) p = some st := by
  rw [stateAt_map_mapped f hf g p st hval]
  obtain ⟨l0, hfind, _⟩ := find?_at_price_exists g p hex
  simp [stateAt, hfind]

/-- A price-preserving rewrite that fixes the state of every level stored at
`p` does not change the state stored at `p`. -/
lemma stateAt_map_frame (f : GridLevel → GridLevel) (hf : ∀ l, (f l).price = l.price)
    (g : List GridLevel) (p : ℚ)
    (hval : ∀ l0, l0.price = p → (f l0).state = l0.state) :
    stateAt (g.map f) p = stateAt g p := by
  rw [stateAt_map_price_preserving f hf]
  simp only [stateAt]
  cases hfind : g.find? (fun l => l.price == p) with
  | none => simp
  | some l1 =>
      have hp1 : l1.price = p := by simpa using List.find?_some hfind
      simp [hval l1 hp1]

/-- C4: under SimpleGrid, `complete_order(L, BUY)` sets L to READY_TO_SELL and
`complete_order(L, SELL)` sets it to READY_TO_BUY; under HedgedGrid either
side sets L to READY_TO_BUY_OR_SELL, and additionally on BUY the
`paired_sell_level` (if present in the grid) becomes READY_TO_SELL and on SELL
the `paired_buy_level` becomes READY_TO_BUY; the state of every other level is
unchanged. (The paired reference is assumed distinct from L itself, as the
pairing calls guarantee.) -/
theorem complete_order_transitions (g : List GridLevel) (lvl : GridLevel) (side : OrderSide)
    (hmem : lvl ∈ g)
    (hps : lvl.pairedSellLevel ≠ some lvl.price)
    (hpb : lvl.pairedBuyLevel ≠ some lvl.price) :
    stateAt (completeOrder StrategyType.SIMPLE_GRID g lvl OrderSide.BUY) lvl.price =
      some GridCycleState.READY_TO_SELL ∧
    stateAt (completeOrder StrategyType.SIMPLE_GRID g lvl OrderSide.SELL) lvl.price =
      some GridCycleState.READY_TO_BUY ∧
    stateAt (completeOrder StrategyType.HEDGED_GRID g lvl OrderSide.BUY) lvl.price =
      some GridCycleState.READY_TO_BUY_OR_SELL ∧
    (∀ q, lvl.pairedSellLevel = some q →
      stateAt (completeOrder StrategyType.HEDGED_GRID g lvl OrderSide.BUY) q =
        (stateAt g q).map (fun _ => GridCycleState.READY_TO_SELL)) ∧
    stateAt (completeOrder StrategyType.HEDGED_GRID g lvl OrderSide.SELL) lvl.price =
      some GridCycleState.READY_TO_BUY_OR_SELL ∧
    (∀ q, lvl.pairedBuyLevel = some q →
      stateAt (completeOrder StrategyType.HEDGED_GRID g lvl OrderSide.SELL) q =
        (stateAt g q).map (fun _ => GridCycleState.READY_TO_BUY)) ∧
    (∀ p, p ≠ lvl.price →
      stateAt (completeOrder StrategyType.SIMPLE_GRID g lvl side) p = stateAt g p) ∧
    (∀ p, p ≠ lvl.price → lvl.pairedSellLevel ≠ some p →
      stateAt (completeOrder StrategyType.HEDGED_GRID g lvl OrderSide.BUY) p = stateAt g p) ∧
    (∀ p, p ≠ lvl.price → lvl.pairedBuyLevel ≠ some p →
      stateAt (completeOrder StrategyType.HEDGED_GRID g lvl OrderSide.SELL) p = stateAt g p) := by
  have hex : ∃ l ∈ g, l.price = lvl.price := ⟨lvl, hmem, rfl⟩
  refine ⟨?_, ?_, ?_, ?_, ?_, ?_, ?_, ?_, ?_⟩
  · simp only [completeOrder]
    exact stateAt_map_found _ (fun l => by split_ifs <;> rfl) g lvl.price _ hex
      (fun l0 h => by simp [h])
  · simp only [completeOrder]
    exact stateAt_map_found _ (fun l => by split_ifs <;> rfl) g lvl.price _ hex
      (fun l0 h => by simp [h])
  · simp only [completeOrder]
    exact stateAt_map_found _ (fun l => by split_ifs <;> rfl) g lvl.price _ hex
      (fun l0 h => by simp [h, beq_iff_eq, hps])
  · intro q hq
    simp only [completeOrder]
    exact stateAt_map_mapped _ (fun l => by split_ifs <;> rfl) g q _
      (fun l0 h => by simp [h, hq])
  · simp only [completeOrder]
    exact stateAt_map_found _ (fun l => by split_ifs <;> rfl) g lvl.price _ hex
      (fun l0 h => by simp [h, beq_iff_eq, hpb])
  · intro q hq
    simp only [completeOrder]
    exact stateAt_map_mapped _ (fun l => by split_ifs <;> rfl) g q _
      (fun l0 h => by simp [h, hq])
  · intro p hp
    cases side with
    | BUY =>
        simp only [completeOrder]
        exact stateAt_map_frame _ (fun l => by split_ifs <;> rfl) g p
          (fun l0 h => by simp [h, beq_iff_eq, hp])
    | SELL =>
        simp only [completeOrder]
        exact stateAt_map_frame _ (fun l => by split_ifs <;> rfl) g p
          (fun l0 h => by simp [h, beq_iff_eq, hp])
  · intro p hp hpsp
    simp only [completeOrder]
    exact stateAt_map_frame _ (fun l => by split_ifs <;> rfl) g p
      (fun l0 h => by simp [h, beq_iff_eq, hp, hpsp])
  · intro p hp hpbp
    simp only [completeOrder]
    exact stateAt_map_frame _ (fun l => by split_ifs <;> rfl) g p
      (fun l0 h => by simp [h, beq_iff_eq, hp, hpbp])

/-- C4 witness: a concrete two-level hedged grid at 100 and 150 with levels
paired to one another: completing a BUY at 100 leaves 100 in
READY_TO_BUY_OR_SELL and turns 150 into READY_TO_SELL, and the SIMPLE
transition at 100 yields READY_TO_SELL. -/
theorem complete_order_transitions_witness :
    stateAt (completeOrder StrategyType.SIMPLE_GRID
      [⟨100, GridCycleState.READY_TO_BUY, none, some 150⟩,
       ⟨150, GridCycleState.READY_TO_SELL, some 100, none⟩]
      ⟨100, GridCycleState.READY_TO_BUY, none, some 150⟩ OrderSide.BUY) 100 =
      some GridCycleState.READY_TO_SELL ∧
    stateAt (completeOrder StrategyType.HEDGED_GRID
      [⟨100, GridCycleState.READY_TO_BUY, none, some 150⟩,
       ⟨150, GridCycleState.READY_TO_SELL, some 100, none⟩]
      ⟨100, GridCycleState.READY_TO_BUY, none, some 150⟩ OrderSide.BUY) 100 =
      some GridCycleState.READY_TO_BUY_OR_SELL ∧
    stateAt (completeOrder StrategyType.HEDGED_GRID
      [⟨100, GridCycleState.READY_TO_BUY, none, some 150⟩,
       ⟨150, GridCycleState.READY_TO_SELL, some 100, none⟩]
      ⟨100, GridCycleState.READY_TO_BUY, none, some 150⟩ OrderSide.BUY) 150 =
      (stateAt [⟨100, GridCycleState.READY_TO_BUY, none, some 150⟩,
       ⟨150, GridCycleState.READY_TO_SELL, some 100, none⟩] 150).map
        (fun _ => GridCycleState.READY_TO_SELL) := by
  have h := complete_order_transitions
    [⟨100, GridCycleState.READY_TO_BUY, none, some 150⟩,
     ⟨150, GridCycleState.READY_TO_SELL, some 100, none⟩]
    ⟨100, GridCycleState.READY_TO_BUY, none, some 150⟩ OrderSide.BUY
    (by simp) (by simp) (by simp)
  exact ⟨h.1, h.2.2.1, h.2.2.2.1 150 rfl⟩

/-- C8: the cancel step of a dynamic top-boundary restart raises nothing to
its caller (the body sits in a blanket `except` that only logs, and the
`clear_all_orders` attribute error is swallowed there); afterwards every order
that was open is CANCELED, both reservation pools are zero with the reserved
amounts returned to the main balances, and the order book keeps every entry at
its position (the clearing call fails before removing anything). The
hypothesis covers the two shapes a restart can be in: either some order is
still open, or nothing is open and the pools are already empty. -/
theorem cancel_all_pending_orders_spec (st : BotState)
    (h : st.orders.filter (fun o => o.isOpen) ≠ [] ∨
         (st.ledger.reservedFiat = 0 ∧ st.ledger.reservedCrypto = 0)) :
    (cancelAllPendingOrders st).2 = false ∧
    ((cancelAllPendingOrders st).1).orders.length = st.orders.length ∧
    (∀ (i : Nat) (o : Order), st.orders[i]? = some o →
      ((cancelAllPendingOrders st).1).orders[i]? =
        some (if o.isOpen then { o with status := OrderStatus.CANCELED } else o)) ∧
    ((cancelAllPendingOrders st).1).ledger.reservedFiat = 0 ∧
    ((cancelAllPendingOrders st).1).ledger.reservedCrypto = 0 ∧
    ((cancelAllPendingOrders st).1).ledger.balance =
      st.ledger.balance + st.ledger.reservedFiat ∧
    ((cancelAllPendingOrders st).1).ledger.crypto =
      st.ledger.crypto + st.ledger.reservedCrypto := by
  simp only [cancelAllPendingOrders, cancelAllPendingOrdersBody]
  split_ifs with hemp
  · have hnil : st.orders.filter (fun o => o.isOpen) = [] := List.isEmpty_iff.mp hemp
    have hz : st.ledger.reservedFiat = 0 ∧ st.ledger.reservedCrypto = 0 := by
      rcases h with hne | hz
      · exact absurd hnil hne
      · exact hz
    refine ⟨trivial, rfl, ?_, hz.1, hz.2, by rw [hz.1]; ring, by rw [hz.2]; ring⟩
    intro i o hio
    have hnotopen : ¬ o.isOpen = true := by
      have := (List.filter_eq_nil_iff.mp hnil) o (List.getElem?_mem hio)
      simpa using this
    simp [hio, hnotopen]
  · refine ⟨trivial, by simp, ?_, rfl, rfl, rfl, rfl⟩
    intro i o hio
    simp [List.getElem?_map, hio]

/-- C8 witness: one open order and reservations (7 fiat, 2 crypto) on the
books: the cancel step reports no exception, cancels the order in place,
zeroes both pools and returns the reserved amounts to the main balances. -/
theorem cancel_all_pending_orders_spec_witness :
    (cancelAllPendingOrders ⟨[⟨1, OrderStatus.OPEN, OrderType.LIMIT, OrderSide.BUY,
        100, 2, 0, 2, 0, 0⟩], ⟨5, 1, 7, 2, 0⟩⟩).2 = false ∧
    ((cancelAllPendingOrders ⟨[⟨1, OrderStatus.OPEN, OrderType.LIMIT, OrderSide.BUY,
        100, 2, 0, 2, 0, 0⟩], ⟨5, 1, 7, 2, 0⟩⟩).1).orders.length = 1 ∧
    ((cancelAllPendingOrders ⟨[⟨1, OrderStatus.OPEN, OrderType.LIMIT, OrderSide.BUY,
        100, 2, 0, 2, 0, 0⟩], ⟨5, 1, 7, 2, 0⟩⟩).1).ledger.reservedFiat = 0 ∧
    ((cancelAllPendingOrders ⟨[⟨1, OrderStatus.OPEN, OrderType.LIMIT, OrderSide.BUY,
        100, 2, 0, 2, 0, 0⟩], ⟨5, 1, 7, 2, 0⟩⟩).1).ledger.balance = 5 + 7 := by
  have h := cancel_all_pending_orders_spec ⟨[⟨1, OrderStatus.OPEN, OrderType.LIMIT,
      OrderSide.BUY, 100, 2, 0, 2, 0, 0⟩], ⟨5, 1, 7, 2, 0⟩⟩
    (Or.inl (by simp [Order.isOpen]))
  exact ⟨h.1, h.2.1, h.2.2.2.1, h.2.2.2.2.2.1⟩

/-- Sorting a grid after appending a price strictly below every existing one
puts the new price first, followed by the least existing price. -/
lemma insertionSort_below_head (xs : List ℚ) (p : ℚ) (hne : xs ≠ [])
    (hbelow : ∀ q ∈ xs, p < q) :
    ∃ m t2, (xs ++ [p]).insertionSort (· ≤ ·) = p :: m :: t2 ∧
      m ∈ xs ∧ (∀ q ∈ xs, m ≤ q) := by
  have hperm : List.Perm ((xs ++ [p]).insertionSort (· ≤ ·)) (xs ++ [p]) :=
    List.perm_insertionSort _ _
  have hsorted : List.Sorted (· ≤ ·) ((xs ++ [p]).insertionSort (· ≤ ·)) :=
    List.sorted_insertionSort _ _
  have hpmem : p ∈ (xs ++ [p]).insertionSort (· ≤ ·) :=
    hperm.mem_iff.mpr (List.mem_append_right _ (List.mem_singleton.mpr rfl))
  cases hs : (xs ++ [p]).insertionSort (· ≤ ·) with
  | nil => rw [hs] at hpmem; exact absurd hpmem (List.not_mem_nil p)
  | cons a t =>
      rw [hs] at hperm hsorted hpmem
      have ha : a = p := by
        have hasrc : a ∈ xs ++ [p] := hperm.mem_iff.mp (List.mem_cons_self a t)
        rcases List.mem_append.mp hasrc with hax | hap
        · exfalso
          rcases List.mem_cons.mp hpmem with hpa | hpt
          · exact absurd (hpa ▸ hbelow a hax) (lt_irrefl a)
          · exact absurd ((List.sorted_cons.mp hsorted).1 p hpt) (not_le.mpr (hbelow a hax))
        · exact List.mem_singleton.mp hap
      subst ha
      have htx : List.Perm t xs := by
        have h1 : List.Perm (a :: t) (a :: xs) :=
          hperm.trans (List.perm_append_singleton a xs)
        exact h1.cons_inv
      cases ht : t with
      | nil =>
          rw [ht] at htx
          exact absurd htx.symm.eq_nil hne
      | cons m t2 =>
          rw [ht] at htx hsorted
          refine ⟨m, t2, rfl, htx.mem_iff.mp (List.mem_cons_self m t2), ?_⟩
          intro q hq
          rcases List.mem_cons.mp (htx.symm.mem_iff.mp hq) with hqm | hqt
          · exact le_of_eq hqm.symm
          · exact (List.sorted_cons.mp (List.sorted_cons.mp hsorted).2).1 q hqt

/-- The argmin scan keeps an exact hit on `target` once it has one. -/
lemma closestStep_keeps (np t : ℚ) (acc : Option GridLevel) (l : GridLevel)
    (h : ∃ b, acc = some b ∧ b.price = t) :
    ∃ b, closestStep np t acc l = some b ∧ b.price = t := by
  obtain ⟨b, rfl, hb⟩ := h
  refine ⟨b, ?_, hb⟩
  unfold closestStep
  by_cases hgate : np < l.price
  · rw [if_pos hgate]
    have hnlt : ¬ |l.price - t| < |b.price - t| := by
      rw [hb, sub_self, abs_zero]
      exact not_lt.mpr (abs_nonneg _)
    exact if_neg hnlt
  · exact if_neg hgate

/-- The argmin scan returns an exact hit as soon as it meets one. -/
lemma closestStep_hit (np t : ℚ) (acc : Option GridLevel) (l : GridLevel)
    (hgate : np < l.price) (hl : l.price = t) :
    ∃ b, closestStep np t acc l = some b ∧ b.price = t := by
  cases acc with
  | none =>
      refine ⟨l, ?_, hl⟩
      unfold closestStep
      rw [if_pos hgate]
  | some b =>
      by_cases hlt : |l.price - t| < |b.price - t|
      · refine ⟨l, ?_, hl⟩
        unfold closestStep
        rw [if_pos hgate]
        exact if_pos hlt
      · refine ⟨b, ?_, ?_⟩
        · unfold closestStep
          rw [if_pos hgate]
          exact if_neg hlt
        · rw [hl, sub_self, abs_zero] at hlt
          push_neg at hlt
          have h0 := abs_eq_zero.mp (le_antisymm hlt (abs_nonneg _))
          linarith [sub_eq_zero.mp h0]

/-- If some level strictly above `np` sits exactly at `target`, the scan ends
on a level priced exactly at `target`. -/
lemma closest_fold_target (np t : ℚ) :
    ∀ (ls : List GridLevel) (acc : Option GridLevel),
      ((∃ lm ∈ ls, np < lm.price ∧ lm.price = t) ∨
       (∃ b, acc = some b ∧ b.price = t)) →
      ∃ res, ls.foldl (closestStep np t) acc = some res ∧ res.price = t := by
  intro ls
  induction ls with
  | nil =>
      intro acc h
      rcases h with ⟨lm, hlm, _⟩ | hacc
      · exact absurd hlm (List.not_mem_nil lm)
      · simpa using hacc
  | cons l ls ih =>
      intro acc h
      rw [List.foldl_cons]
      rcases h with ⟨lm, hlm, hgate, hprice⟩ | hacc
      · rcases List.mem_cons.mp hlm with rfl | hlm'
        · exact ih _ (Or.inr (closestStep_hit np t acc lm hgate hprice))
        · exact ih _ (Or.inl ⟨lm, hlm', hgate, hprice⟩)
      · exact ih _ (Or.inr (closestStep_keeps np t acc l hacc))

/-- C7 counterexample: under SIMPLE_GRID, a level appended by the dynamic
bottom-boundary extension is created READY_TO_BUY but its paired sell level is
left unset (`_setup_profit_taking_for_new_level` only pairs for HEDGED_GRID),
refuting the claim that the pairing happens for every configured strategy
type. Grid [100, 150], new price 50: the closest existing higher level is 100,
yet the new level's `paired_sell_level` is `none`. -/
theorem new_level_pairing_counterexample :
    (addOneGridLevelBelow StrategyType.SIMPLE_GRID
      ⟨[100, 150], [⟨100, GridCycleState.READY_TO_BUY_OR_SELL, none, none⟩,
        ⟨150, GridCycleState.READY_TO_SELL, none, none⟩], [100]⟩ 50).gridLevels =
      [⟨100, GridCycleState.READY_TO_BUY_OR_SELL, none, none⟩,
       ⟨150, GridCycleState.READY_TO_SELL, none, none⟩,
       ⟨50, GridCycleState.READY_TO_BUY, none, none⟩] ∧
    (⟨50, GridCycleState.READY_TO_BUY, none, none⟩ : GridLevel).pairedSellLevel ≠
      some 100 := by
  exact ⟨rfl, by simp⟩

/-- C7 amended: a level appended by a dynamic bottom-boundary extension below
the whole grid is created in state READY_TO_BUY for every strategy type;
under HEDGED_GRID its paired sell level is set to the closest existing higher
grid level (the least existing grid price, all of which lie above the new
one), while under SIMPLE_GRID no pairing is set; existing levels are kept
unchanged. -/
theorem new_level_pairing_amended (strategy : StrategyType) (gs : GridState) (p : ℚ)
    (h2 : 2 ≤ gs.priceGrids.length)
    (hbelow : ∀ q ∈ gs.priceGrids, p < q)
    (hsync : (gs.gridLevels.map (fun l => l.price)).Perm gs.priceGrids) :
    ∃ nl : GridLevel,
      (addOneGridLevelBelow strategy gs p).gridLevels = gs.gridLevels ++ [nl] ∧
      nl.price = p ∧
      nl.state = GridCycleState.READY_TO_BUY ∧
      nl.pairedBuyLevel = none ∧
      (strategy = StrategyType.SIMPLE_GRID → nl.pairedSellLevel = none) ∧
      (strategy = StrategyType.HEDGED_GRID →
        ∃ m, nl.pairedSellLevel = some m ∧ m ∈ gs.priceGrids ∧
          ∀ q ∈ gs.priceGrids, m ≤ q) := by
  have hne : gs.priceGrids ≠ [] := by
    intro hnil
    rw [hnil] at h2
    simp at h2
  obtain ⟨m, t2, hsortEq, hmmem, hmleast⟩ :=
    insertionSort_below_head gs.priceGrids p hne hbelow
  cases strategy with
  | SIMPLE_GRID =>
      exact ⟨⟨p, GridCycleState.READY_TO_BUY, none, none⟩, rfl, rfl, rfl, rfl,
        fun _ => rfl, fun h => StrategyType.noConfusion h⟩
  | HEDGED_GRID =>
      have hsp : calcCurrentGridSpacing ((gs.priceGrids ++ [p]).insertionSort (· ≤ ·)) =
          m - p := by
        have hsorted : List.Sorted (· ≤ ·) ((gs.priceGrids ++ [p]).insertionSort (· ≤ ·)) :=
          List.sorted_insertionSort _ _
        rw [hsortEq] at hsorted
        simp only [calcCurrentGridSpacing, hsortEq, hsorted.insertionSort_eq]
        rw [if_neg (show ¬ ((p :: m :: t2).length < 2) by
          simp only [List.length_cons]; omega)]
        show |m - p| = m - p
        exact abs_of_nonneg (by linarith [hbelow m hmmem])
      have htarget : p + calcCurrentGridSpacing
          ((gs.priceGrids ++ [p]).insertionSort (· ≤ ·)) = m := by
        rw [hsp]; ring
      have hexists : ∃ lm ∈ gs.gridLevels ++
          [(⟨p, GridCycleState.READY_TO_BUY, none, none⟩ : GridLevel)],
          p < lm.price ∧ lm.price = p + calcCurrentGridSpacing
            ((gs.priceGrids ++ [p]).insertionSort (· ≤ ·)) := by
        have hmm : m ∈ gs.gridLevels.map (fun l => l.price) := hsync.symm.mem_iff.mp hmmem
        obtain ⟨lm, hlm, hlmp⟩ := List.mem_map.mp hmm
        exact ⟨lm, List.mem_append_left _ hlm,
          by rw [hlmp]; exact hbelow m hmmem, by rw [hlmp, htarget]⟩
      obtain ⟨res, hres, hresp⟩ := closest_fold_target p
        (p + calcCurrentGridSpacing ((gs.priceGrids ++ [p]).insertionSort (· ≤ ·)))
        (gs.gridLevels ++ [(⟨p, GridCycleState.READY_TO_BUY, none, none⟩ : GridLevel)])
        none (Or.inl hexists)
      have hsetup : setupProfitTakingForNewLevel StrategyType.HEDGED_GRID
          ⟨(gs.priceGrids ++ [p]).insertionSort (· ≤ ·),
           gs.gridLevels ++ [⟨p, GridCycleState.READY_TO_BUY, none, none⟩],
           (gs.sortedBuyGrids ++ [p]).insertionSort (· ≤ ·)⟩
          ⟨p, GridCycleState.READY_TO_BUY, none, none⟩ =
          ⟨p, GridCycleState.READY_TO_BUY, none, some res.price⟩ := by
        simp only [setupProfitTakingForNewLevel, closestSellLevelAbove]
        rw [if_pos (show (StrategyType.HEDGED_GRID == StrategyType.HEDGED_GRID) = true
          from rfl)]
        rw [hres]
      refine ⟨⟨p, GridCycleState.READY_TO_BUY, none, some res.price⟩, ?_, rfl, rfl, rfl,
        fun h => StrategyType.noConfusion h, fun _ => ⟨m, ?_, hmmem, hmleast⟩⟩
      · show gs.gridLevels ++ [setupProfitTakingForNewLevel _ _ _] = _
        rw [hsetup]
      · rw [hresp, htarget]

/-- C7 witness: extending the hedged grid [100, 150] downward with a level at
50 creates it READY_TO_BUY and pairs it to the closest existing higher level,
namely 100 (the least existing price). -/
theorem new_level_pairing_amended_witness :
    ∃ nl : GridLevel,
      (addOneGridLevelBelow StrategyType.HEDGED_GRID
        ⟨[100, 150], [⟨100, GridCycleState.READY_TO_BUY_OR_SELL, none, none⟩,
          ⟨150, GridCycleState.READY_TO_SELL, none, none⟩], [100]⟩ 50).gridLevels =
        [⟨100, GridCycleState.READY_TO_BUY_OR_SELL, none, none⟩,
         ⟨150, GridCycleState.READY_TO_SELL, none, none⟩] ++ [nl] ∧
      nl.price = 50 ∧
      nl.state = GridCycleState.READY_TO_BUY ∧
      ∃ m, nl.pairedSellLevel = some m ∧ m ∈ [(100 : ℚ), 150] ∧
        ∀ q ∈ [(100 : ℚ), 150], m ≤ q := by
  obtain ⟨nl, h1, h2, h3, _, _, h6⟩ := new_level_pairing_amended StrategyType.HEDGED_GRID
    ⟨[100, 150], [⟨100, GridCycleState.READY_TO_BUY_OR_SELL, none, none⟩,
      ⟨150, GridCycleState.READY_TO_SELL, none, none⟩], [100]⟩ 50
    (by norm_num)
    (by intro q hq
        rcases List.mem_cons.mp hq with rfl | hq2
        · norm_num
        · rw [List.mem_singleton.mp hq2]
          norm_num)
    (by exact List.Perm.refl _)
  exact ⟨nl, h1, h2, h3, h6 rfl⟩

/-- Running the loop up to the `publish` resumption executes exactly one
segment of every task `gather` scheduled: tasks finishing within that segment
are recorded, the others are left pending behind the resumption. -/
lemma runToReturn_spec (xs : List (Nat × List Bool)) (rest : List BusEntry) :
    runToReturn ((xs.map (fun q => BusEntry.cb q.1 0 q.2)) ++ [BusEntry.ret] ++ rest) =
      (xs.filterMap phase1Rec, rest ++ xs.filterMap phase1Cont) := by
  induction xs generalizing rest with
  | nil => simp [runToReturn]
  | cons q xs ih =>
      obtain ⟨i, segs⟩ := q
      cases segs with
      | nil =>
          have ih' := ih rest
          simp only [List.append_assoc, List.singleton_append] at ih'
          simp [runToReturn, ih', phase1Rec, phase1Cont]
      | cons s t =>
          cases s with
          | true =>
              have ih' := ih rest
              simp only [List.append_assoc, List.singleton_append] at ih'
              simp [runToReturn, ih', phase1Rec, phase1Cont]
          | false =>
              by_cases ht : t.isEmpty
              · have ih' := ih rest
                simp only [List.append_assoc, List.singleton_append] at ih'
                simp [runToReturn, ih', phase1Rec, phase1Cont, ht]
              · have h2 := ih (rest ++ [BusEntry.cb i 1 t])
                simp only [List.map_cons, List.cons_append, runToReturn,
                  Bool.false_eq_true, if_false, ht]
                rw [show ((xs.map (fun q => BusEntry.cb q.1 0 q.2)) ++ [BusEntry.ret] ++ rest)
                      ++ [BusEntry.cb i 1 t] =
                    (xs.map (fun q => BusEntry.cb q.1 0 q.2)) ++ [BusEntry.ret] ++
                      (rest ++ [BusEntry.cb i 1 t]) from by simp]
                rw [h2]
                simp [phase1Rec, phase1Cont, ht]

/-- Draining the loop produces, in some order, one completion record per task:
each task runs to its end or to its first raising segment, independently of
every other task. -/
lemma runQueue_perm (q : List BusEntry) :
    List.Perm (runQueue q) (q.filterMap entryFinalRec) := by
  induction q using runQueue.induct with
  | case1 => simp [runQueue]
  | case2 rest ih =>
      simp only [runQueue, List.filterMap_cons, entryFinalRec]
      exact ih
  | case3 i d rest ih =>
      simp only [runQueue, List.filterMap_cons, entryFinalRec, execLen, raisesIn,
        Nat.add_zero]
      exact List.Perm.cons _ ih
  | case4 i d t rest ih =>
      simp only [runQueue, if_true, List.filterMap_cons, entryFinalRec, execLen,
        raisesIn, Bool.true_or]
      exact List.Perm.cons _ ih
  | case5 i d s t rest hs ht ih =>
      have hs0 : s = false := by
        cases s with
        | false => rfl
        | true => exact absurd rfl hs
      subst hs0
      have ht2 : t = [] := List.isEmpty_iff.mp ht
      subst ht2
      simp only [runQueue, Bool.false_eq_true, if_false, List.isEmpty_nil, if_true,
        List.filterMap_cons, entryFinalRec, execLen, raisesIn, Bool.false_or]
      exact List.Perm.cons _ ih
  | case6 i d s t rest hs ht ih =>
      have hs0 : s = false := by
        cases s with
        | false => rfl
        | true => exact absurd rfl hs
      subst hs0
      simp only [runQueue, Bool.false_eq_true, if_false, ht]
      refine ih.trans ?_
      simp only [List.filterMap_append, List.filterMap_cons, entryFinalRec, execLen,
        raisesIn, List.filterMap_nil, Bool.false_eq_true, if_false, Bool.false_or]
      have harith : d + 1 + execLen t = d + (1 + execLen t) := by omega
      rw [harith]
      exact List.perm_append_singleton _ _

/-- `publish` in closed form: the records at the moment it returns and the
pending continuations it leaves behind. -/
lemma publishModel_spec (cbs : List (List Bool)) :
    publishModel cbs = (cbs.enum.filterMap phase1Rec,
      cbs.enum.filterMap phase1Rec ++ runQueue (cbs.enum.filterMap phase1Cont)) := by
  have h := runToReturn_spec cbs.enum []
  rw [List.append_nil] at h
  rw [List.nil_append] at h
  simp only [publishModel, h]

/-- Pointwise: a callback either finishes during `publish` (and its phase-1
record is already its final record) or survives with one executed segment and
finishes later with the same final record. -/
lemma phase1_dichotomy (q : Nat × List Bool) :
    (phase1Rec q = some (finalRec q) ∧ phase1Cont q = none) ∨
    (phase1Rec q = none ∧ (phase1Cont q).bind entryFinalRec = some (finalRec q)) := by
  obtain ⟨i, segs⟩ := q
  cases segs with
  | nil => left; simp [phase1Rec, phase1Cont, finalRec, execLen, raisesIn]
  | cons s t =>
      cases s with
      | true => left; simp [phase1Rec, phase1Cont, finalRec, execLen, raisesIn]
      | false =>
          by_cases ht : t.isEmpty
          · left
            have ht2 : t = [] := List.isEmpty_iff.mp ht
            subst ht2
            simp [phase1Rec, phase1Cont, finalRec, execLen, raisesIn]
          · right
            simp [phase1Rec, phase1Cont, finalRec, execLen, raisesIn, ht,
              entryFinalRec]

/-- Splitting each callback's record between the two phases is a permutation
of the per-callback final records. -/
lemma phase_split_perm (l : List (Nat × List Bool)) :
    List.Perm (l.filterMap phase1Rec ++
        l.filterMap (fun q => (phase1Cont q).bind entryFinalRec))
      (l.map finalRec) := by
  induction l with
  | nil => simp
  | cons q l ih =>
      rcases phase1_dichotomy q with ⟨h1, h2⟩ | ⟨h1, h2⟩
      · simp only [List.filterMap_cons, h1, h2, List.map_cons, List.cons_append,
          Option.bind_none]
        exact ih.cons _
      · simp only [List.filterMap_cons, h1, h2, List.map_cons]
        refine List.Perm.trans ?_ (ih.cons _)
        exact List.perm_middle

/-- C9 counterexample: one subscribed async callback whose body suspends once
(two segments, no exception). When `publish` returns, no callback has
completed — `_safe_invoke_async` only creates the inner task and `gather`
awaits the wrappers, not the callbacks — so `publish` does not await the
completion of every subscribed callback; the callback finishes only after
`publish` has returned (final record: 2 segments executed, no exception). -/
theorem publish_await_counterexample :
    (publishModel [[false, false]]).1 = [] ∧
    ¬ (∃ r ∈ (publishModel [[false, false]]).1, r.idx = 0) ∧
    (publishModel [[false, false]]).2 = [⟨0, 2, false⟩] := by
  have hspec := publishModel_spec [[false, false]]
  have h1 : ([[false, false]] : List (List Bool)).enum.filterMap phase1Rec = [] := rfl
  have hq : ([[false, false]] : List (List Bool)).enum.filterMap phase1Cont =
      [BusEntry.cb 0 1 [false]] := rfl
  have h2 : (publishModel [[false, false]]).2 = [⟨0, 2, false⟩] := by
    rw [hspec]
    simp only [h1, hq, List.nil_append]
    have := runQueue_perm [BusEntry.cb 0 1 [false]]
    rw [show ([BusEntry.cb 0 1 [false]].filterMap entryFinalRec) =
        [(⟨0, 2, false⟩ : CbRec)] from rfl] at this
    exact List.perm_singleton.mp this
  refine ⟨by rw [hspec]; exact h1, ?_, h2⟩
  simp [hspec, h1, phase1Rec]

/-- C9 amended: `publish` awaits the spawning of every subscribed async
callback, not its completion: when it returns, every callback has executed
exactly its first segment — so a callback with no suspension point has
completed, but a suspending one may still be running. Every callback
eventually runs to completion or to its first raising segment, with its final
record independent of every other callback, so an exception raised inside one
handler is caught (recorded, never propagated) and does not prevent or cancel
the execution of the other handlers. -/
theorem publish_schedule_amended (cbs : List (List Bool)) :
    (publishModel cbs).1 = cbs.enum.filterMap phase1Rec ∧
    List.Perm (publishModel cbs).2 (cbs.enum.map finalRec) ∧
    (∀ i segs, (i, segs) ∈ cbs.enum →
      ∃ r ∈ (publishModel cbs).2, r.idx = i ∧ r.executed = execLen segs ∧
        r.raised = raisesIn segs) := by
  have hspec := publishModel_spec cbs
  have hperm : List.Perm (publishModel cbs).2 (cbs.enum.map finalRec) := by
    rw [hspec]
    refine List.Perm.trans ?_ (phase_split_perm cbs.enum)
    refine List.Perm.append_left _ ?_
    refine (runQueue_perm _).trans ?_
    rw [List.filterMap_filterMap]
  refine ⟨by rw [hspec], hperm, ?_⟩
  intro i segs hmem
  refine ⟨finalRec (i, segs), ?_, rfl, rfl, rfl⟩
  exact hperm.symm.mem_iff.mp (List.mem_map_of_mem finalRec hmem)

/-- C9 amended witness: two callbacks, the first raising in its only segment
and the second suspending once; `publish` returns with the first one already
finished (its exception caught and recorded), and finally both have run —
the raiser stopped at its raising segment and the other to completion. -/
theorem publish_schedule_amended_witness :
    (publishModel [[true], [false, false]]).1 = [⟨0, 1, true⟩] ∧
    (∃ r ∈ (publishModel [[true], [false, false]]).2,
      r.idx = 1 ∧ r.executed = 2 ∧ r.raised = false) := by
  have h := publish_schedule_amended [[true], [false, false]]
  refine ⟨?_, h.2.2 1 [false, false] (by decide)⟩
  rw [h.1]
  rfl

end GridBot
